import Mathlib

/-!
Verification of the stock-scraper program (a single Python source file) by a
shallow embedding in Lean.

The embedding mirrors the source closely:
  - the pure string manipulation of the source (strip, upper, single-character
    replace, the strict numeric regex, the word-boundary search used by the
    statement-table lookup) is re-implemented over lists of characters;
  - Python float values of decimal literals are modelled exactly as rationals;
  - the HTML library is modelled by an abstract document tree (a ratio summary
    list of label/value entries plus named statement tables of rows of cells);
    the text of a node is fallible, the fault case standing for an internal
    library error raised while that node is read, so that the try/except
    structure of the source can be embedded faithfully;
  - the two network sources are explicit world functions given as inputs;
  - the row loop of the orchestrator is a recursion over the input rows that
    also collects the emitted progress fractions.
-/

namespace StockScraper

/-! ## Python string primitives -/

/-- Whitespace characters stripped by the Python strip method (ASCII subset;
the claims only exercise space, tab, newline). -/
def wsChar (c : Char) : Bool :=
  c == ' ' || c == '\t' || c == '\n' || c == '\r'

def dropLeadingWs : List Char → List Char
  | [] => []
  | c :: t => if wsChar c then dropLeadingWs t else c :: t

/-- Python str.strip: remove whitespace from both ends. -/
def pyStrip (s : String) : String :=
  ⟨(dropLeadingWs (dropLeadingWs s.data.reverse).reverse)⟩

def upChar (c : Char) : Char :=
  if 'a' ≤ c && c ≤ 'z' then Char.ofNat (c.toNat - 32) else c

def lowChar (c : Char) : Char :=
  if 'A' ≤ c && c ≤ 'Z' then Char.ofNat (c.toNat + 32) else c

/-- Python str.upper (ASCII letters; the program only meets ASCII labels). -/
def pyUpper (s : String) : String := ⟨s.data.map upChar⟩

def lowerList (l : List Char) : List Char := l.map lowChar

/-- Python replace of a single character by the empty string. -/
def removeChar (c : Char) (s : String) : String :=
  ⟨s.data.filter (fun x => x != c)⟩

/-- Python replace of a single character by a single character. -/
def replaceCharChar (c r : Char) (s : String) : String :=
  ⟨s.data.map (fun x => if x == c then r else x)⟩

/-- Python replace of a single character by a string. -/
def replaceCharStr (c : Char) (r : String) (s : String) : String :=
  ⟨(s.data.map (fun x => if x == c then r.data else [x])).flatten⟩

/-- Does the needle occur as a leading segment of the haystack. -/
def leadsList : List Char → List Char → Bool
  | [], _ => true
  | _ :: _, [] => false
  | a :: n, b :: h => a == b && leadsList n h

/-- Python substring containment (the in operator on strings). -/
def containsSub (n : List Char) : List Char → Bool
  | [] => leadsList n []
  | c :: t => leadsList n (c :: t) || containsSub n t

/-- Word characters of the regex escape for word boundaries (ASCII model). -/
def isWordChar (c : Char) : Bool := c.isAlphanum || c == '_'

def wordOpt : Option Char → Bool
  | some c => isWordChar c
  | none => false

/-- A regex word boundary holds between two optional characters when exactly
one side is a word character. -/
def atBoundary (a b : Option Char) : Bool := wordOpt a != wordOpt b

/-- The needle matches at the current position of the haystack, with word
boundaries on both sides; prev is the haystack character just before. -/
def matchHere (prev : Option Char) (n h : List Char) : Bool :=
  leadsList n h && atBoundary prev n.head? && atBoundary n.getLast? ((h.drop n.length).head?)

def searchWord (n : List Char) : Option Char → List Char → Bool
  | prev, [] => matchHere prev n []
  | prev, c :: t => matchHere prev n (c :: t) || searchWord n (some c) t

/-- Case-insensitive whole-word containment: the regex search of the source,
a compiled word-boundary pattern with the IGNORECASE flag. -/
def containsWordCI (hay needle : String) : Bool :=
  searchWord (lowerList needle.data) none (lowerList hay.data)

/-! ## The strict numeric pattern and decimal values -/

def splitDot : List Char → List (List Char)
  | [] => [[]]
  | c :: t =>
    if c == '.' then [] :: splitDot t
    else
      match splitDot t with
      | [] => [[c]]
      | h :: r => (c :: h) :: r

def allDigits (l : List Char) : Bool := !l.isEmpty && l.all (fun c => c.isDigit)

/-- The strict numeric pattern of the source, lines 35 and 63: an optional
leading minus, digits, and an optional dot followed by digits. -/
def matchesNumeric (l : List Char) : Bool :=
  let t :=
    match l with
    | '-' :: r => r
    | _ => l
  match splitDot t with
  | [a] => allDigits a
  | [a, b] => allDigits a && allDigits b
  | _ => false

def natOfDigits (l : List Char) : Nat :=
  l.foldl (fun n c => 10 * n + (c.toNat - 48)) 0

def ratOfUnsigned (l : List Char) : ℚ :=
  match splitDot l with
  | [a] => (natOfDigits a : ℚ)
  | [a, b] => (natOfDigits a : ℚ) + (natOfDigits b : ℚ) / (10 ^ b.length : ℚ)
  | _ => 0

/-- Python float of a string that matches the strict numeric pattern,
modelled exactly over the rationals. -/
def ratOfNumeric (l : List Char) : ℚ :=
  match l with
  | '-' :: r => -(ratOfUnsigned r)
  | _ => ratOfUnsigned l

/-! ## Values and the unavailable marker -/

/-- A Python value in the cells the program manipulates: a number, a string,
or the pandas missing-value marker. -/
inductive Val where
  | num (q : ℚ)
  | str (s : String)
  | nan
deriving DecidableEq, Repr

/-- The unavailable marker of the source is the literal string N/A. -/
def na : Val := Val.str "N/A"

/-- Python str of a cell value. A missing value stringifies to the text nan
(which is how claim C10 arises); numeric cells stringify through the Rat
ToString instance, a stand-in for the Python float repr whose only property
the claims depend on is that it is never empty. -/
def pyStrVal : Val → String
  | Val.num q => toString q
  | Val.str s => s
  | Val.nan => "nan"

/-! ## Normalization and parsing of extracted text, lines 34-36 and 61-63 -/

/-- Line 34: strip, then remove thousands separators, every dash, and every
space character. Currency and percent signs are not removed here. -/
def tableNorm (s : String) : String :=
  removeChar ' ' (removeChar '-' (removeChar ',' (pyStrip s)))

/-- Lines 34-37: normalize a statement cell and parse it, unavailable when the
normalized text fails the strict numeric pattern. -/
def parseTableText (s : String) : Val :=
  let v := tableNorm s
  if matchesNumeric v.data then Val.num (ratOfNumeric v.data) else na

/-- Line 62: strip, then remove the currency symbol, the percent sign and the
thousands separator. Dashes are not removed here. -/
def ratioNorm (s : String) : String :=
  removeChar ',' (removeChar '%' (removeChar '₹' (pyStrip s)))

/-- Lines 62-65: normalize a summary-list value and parse it. -/
def parseRatioVal (s : String) : Val :=
  let v := ratioNorm s
  if matchesNumeric v.data then Val.num (ratOfNumeric v.data) else na

/-- Line 61: label normalization, strip then newlines to spaces then upper. -/
def normLabel (s : String) : String :=
  pyUpper (replaceCharChar '\n' ' ' (pyStrip s))

/-! ## The document model -/

/-- Text of an HTML node. The fault case models a node on which the
underlying library raises while its text is taken; it is the explicit
internal-fault channel that claims C2 and C6 quantify over. -/
inductive TextV where
  | ok (s : String)
  | fault
deriving DecidableEq, Repr

def okText : TextV → Bool
  | TextV.ok _ => true
  | TextV.fault => false

/-- One li entry of the ratio summary list: the optional name span and the
optional value span (absent when the source document lacks them). -/
structure LiEntry where
  name : Option TextV
  value : Option TextV
deriving DecidableEq, Repr

/-- A statement table: rows of td cells. -/
abbrev Table := List (List TextV)

/-- A parsed document: the optional ratio summary list container, and the
first table of each named section, keyed by section id. -/
structure Doc where
  ratioList : Option (List LiEntry)
  sections : List (String × Table)
deriving DecidableEq, Repr

/-- Result of running a try block that assigns into the data record: the
block either finishes or raises, and either way carries the state of the
record at that moment. -/
inductive ExtrRes (α : Type) where
  | done (a : α)
  | raised (a : α)
deriving DecidableEq, Repr

/-! ## The statement extractor, lines 24-39 -/

/-- Line 29: locate the first td (in document order) whose string matches the
word-boundary pattern for the row name, and give back the cell list of its
row. A fault node has no string and never matches. -/
def findRow (t : Table) (rowName : String) : Option (List TextV) :=
  t.find? (fun row => row.any (fun c =>
    match c with
    | TextV.ok s => containsWordCI s rowName
    | TextV.fault => false))

/-- Lines 26-37, the body of extract_table_value before its try/except: it
raises exactly when the text of the final cell faults. -/
def extractTableBody (secs : List (String × Table)) (tableId rowName : String) :
    ExtrRes Val :=
  match (secs.find? (fun p => p.1 == tableId)).map (fun p => p.2) with
  | none => ExtrRes.done na
  | some t =>
    match findRow t rowName with
    | none => ExtrRes.done na
    | some cells =>
      match cells.getLast? with
      | none => ExtrRes.done na
      | some (TextV.ok s) => ExtrRes.done (parseTableText s)
      | some TextV.fault => ExtrRes.raised na

/-- Lines 24-39: extract_table_value with its try/except; every internal
fault is caught and becomes the unavailable marker. -/
def extract_table_value (secs : List (String × Table)) (tableId rowName : String) : Val :=
  match extractTableBody secs tableId rowName with
  | ExtrRes.done v => v
  | ExtrRes.raised _ => na

/-! ## The ratio-summary extraction, lines 54-65 -/

/-- Lines 56-65: the loop over the summary entries. Every entry whose two
spans are present has both texts read (a fault in either raises); every entry
whose normalized upper-cased label contains the target substring overwrites
the data field, so the last match wins. The carried value is the data field,
kept by the raised case as the state at the moment of the fault. -/
def peLoop : List LiEntry → Val → ExtrRes Val
  | [], acc => ExtrRes.done acc
  | e :: rest, acc =>
    match e.name, e.value with
    | some nt, some vt =>
      match nt, vt with
      | TextV.ok ns, TextV.ok vs =>
        peLoop rest
          (if containsSub "P/E".data (normLabel ns).data then parseRatioVal vs else acc)
      | _, _ => ExtrRes.raised acc
    | _, _ => peLoop rest acc

/-- Lines 54-57: the P/E part of the scrape, over the optional container. -/
def peExtract (d : Doc) : ExtrRes Val :=
  match d.ratioList with
  | none => ExtrRes.done na
  | some es => peLoop es na

/-- Lines 46-68: the extraction part of the scrape after a successful fetch
and parse, under the one shared try/except of the source: a raise inside the
P/E loop jumps to the handler, so the interest field keeps its initial
unavailable value; otherwise the interest field is extracted by
extract_table_value, which never raises outward. -/
def screenerExtract (d : Doc) : Val × Val :=
  match peExtract d with
  | ExtrRes.raised pe => (pe, na)
  | ExtrRes.done pe => (pe, extract_table_value d.sections "profit-loss" "Interest")

/-! ## The fundamentals fetch, lines 41-74 -/

structure Request where
  url : String
  userAgent : String
  timeoutSecs : Nat
deriving DecidableEq, Repr

/-- Line 42: spaces to hyphens, then ampersands to their percent encoding. -/
def formattedName (s : String) : String :=
  replaceCharStr '&' "%26" (replaceCharChar ' ' '-' s)

/-- Lines 43-45 and 49: the single request the scrape issues. -/
def screenerRequest (screenerName : String) : Request :=
  { url := "https://www.screener.in/company/" ++ formattedName screenerName ++ "/consolidated/"
    userAgent := "Mozilla/5.0"
    timeoutSecs := 10 }

/-- Outcome of the HTTP fetch: a transport failure (the request call raising,
e.g. a timeout), or a response with a status code and a body whose parse
either yields a document or raises (none). -/
inductive FetchResult where
  | netFail
  | got (status : Nat) (doc : Option Doc)
deriving DecidableEq, Repr

/-- The failure modes listed by the spec for the fundamentals fetch: transport
error, non-success status (the 4xx/5xx range raised by raise_for_status), or
a parse exception. -/
def isFailure : FetchResult → Bool
  | FetchResult.netFail => true
  | FetchResult.got s d => (400 ≤ s && s < 600) || d.isNone

/-- Lines 41-74: scrape_screener_data_minimal. The world maps the issued
request to its outcome; the first argument is unused, as in the source. -/
def scrape_screener_data_minimal (stockName screenerName : String)
    (world : Request → FetchResult) : Val × Val :=
  match world (screenerRequest screenerName) with
  | FetchResult.netFail => (na, na)
  | FetchResult.got status d =>
    if 400 ≤ status && status < 600 then (na, na)
    else
      match d with
      | none => (na, na)
      | some doc => screenerExtract doc

/-! ## The symbol mapping, lines 17-21 and 113-120 -/

/-- Lines 17-21: the central mapping table, key to yfinance symbol and
screener name. -/
def SYMBOL_MAP : List (String × String × String) :=
  [("INFOSYS", "INFY.NS", "INFOSYS"),
   ("HDFC", "HDFCBANK.NS", "HDFCBANK"),
   ("L&T", "LT.NS", "LT")]

def mapLookup (name : String) : Option (String × String) :=
  (SYMBOL_MAP.find? (fun p => p.1 == name)).map (fun p => p.2)

/-- Lines 113-120: the mapping logic over the already trimmed-and-uppercased
stock name; the fallback removes space characters and appends the fixed
exchange suffix, and reuses the name itself as the screener identifier. -/
def resolve (stockName : String) : String × String :=
  match mapLookup stockName with
  | some p => p
  | none => (removeChar ' ' stockName ++ ".NS", stockName)

/-! ## The market data fetch, lines 124-135 -/

/-- The quote snapshot of the market data provider: the two fields the
program reads, each possibly absent. -/
structure Quote where
  currentPrice : Option Val
  marketCap : Option Val
deriving DecidableEq, Repr

/-- Round half to even at the integer, the Python round tie rule. -/
def roundHalfEvenInt (x : ℚ) : ℤ :=
  if x - ⌊x⌋ < 1/2 then ⌊x⌋
  else if (1 : ℚ)/2 < x - ⌊x⌋ then ⌊x⌋ + 1
  else if 2 ∣ ⌊x⌋ then ⌊x⌋ else ⌊x⌋ + 1

/-- Python round(q, 2), modelled exactly over the rationals. -/
def pyRound2 (q : ℚ) : ℚ := ((roundHalfEvenInt (100 * q) : ℤ) : ℚ) / 100

/-- Lines 131-133: the market cap branch, dividing by ten million and
rounding to two places only when the raw figure is numeric. -/
def market_cap_cr (raw : Val) : Val :=
  match raw with
  | Val.num r => Val.num (pyRound2 (r / 10000000))
  | _ => na

/-- Lines 124-135: the yfinance block; none models a raised ticker lookup,
in which case both fields keep their initial unavailable value. The price is
taken verbatim when present. -/
def yfFetch (q : Option Quote) : Val × Val :=
  match q with
  | none => (na, na)
  | some d => ((d.currentPrice).getD na, market_cap_cr ((d.marketCap).getD na))

/-! ## The row pipeline orchestrator, lines 96-168 -/

/-- One input or output row: its columns in order, each with a value. -/
abbrev Row := List (String × Val)

/-- Cell access by column name; a column absent from the row reads as the
missing-value marker. -/
def getVal (r : Row) (c : String) : Val :=
  match r.find? (fun p => p.1 == c) with
  | some p => p.2
  | none => Val.nan

/-- Line 110: the normalized stock name of a row. -/
def rowStockName (r : Row) : String :=
  pyUpper (pyStrip (pyStrVal (getVal r "Stock Name")))

/-- Line 111: a row is skipped when its normalized stock name is empty. -/
def blankName (r : Row) : Bool := decide (rowStockName r = "")

/-- Lines 165-166: the fixed new columns of the output, in order. -/
def newColNames : List String :=
  ["Stock Name", "YF Symbol Used", "Current Price (Rs.)",
   "Market Cap (Cr.)", "P/E Ratio", "Interest (Cr.)"]

/-- Lines 141-148: the six freshly computed columns of a processed row. -/
def extractedCols (wy : String → Option Quote) (ws : Request → FetchResult) (r : Row) : Row :=
  let nm := rowStockName r
  let rs := resolve nm
  let yf := yfFetch (wy rs.1)
  let sc := scrape_screener_data_minimal nm rs.2 ws
  [("Stock Name", getVal r "Stock Name"),
   ("YF Symbol Used", Val.str rs.1),
   ("Current Price (Rs.)", yf.1),
   ("Market Cap (Cr.)", yf.2),
   ("P/E Ratio", sc.1),
   ("Interest (Cr.)", sc.2)]

def keyList (row : Row) : List String := row.map (fun p => p.1)

/-- Python membership of a string in a list of strings. -/
def strMem (c : String) (l : List String) : Bool := l.any (fun x => x == c)

/-- Python membership of a column among the keys of the data record. -/
def hasKey (row : Row) (c : String) : Bool := strMem c (keyList row)

/-- Lines 150-153: append every original column not already present. -/
def mergeCols (base : Row) (cols : List String) (r : Row) : Row :=
  cols.foldl (fun acc c => if hasKey acc c then acc else acc ++ [(c, getVal r c)]) base

/-- Lines 113-153: the full processing of one non-skipped row. -/
def processRow (wy : String → Option Quote) (ws : Request → FetchResult)
    (cols : List String) (r : Row) : Row :=
  mergeCols (extractedCols wy ws r) cols r

/-- Lines 103-156: the row loop. The pair collects the output rows and the
progress fractions, one fraction per input row, emitted at the top of each
iteration before the skip test. -/
def runAux (wy : String → Option Quote) (ws : Request → FetchResult)
    (cols : List String) (n : Nat) : Nat → List Row → List Row × List ℚ
  | _, [] => ([], [])
  | i, r :: rest =>
    let tail := runAux wy ws cols n (i + 1) rest
    (if blankName r then tail.1 else processRow wy ws cols r :: tail.1,
     (((i : ℚ) + 1) / (n : ℚ)) :: tail.2)

def runBatch (wy : String → Option Quote) (ws : Request → FetchResult)
    (cols : List String) (rows : List Row) : List Row × List ℚ :=
  runAux wy ws cols rows.length 0 rows

/-- Lines 165-168: the final column order of the output table. -/
def finalColOrder (cols : List String) : List String :=
  newColNames ++ cols.filter (fun c => !strMem c newColNames)

/-! ## Derived notions used to state the claims -/

/-- An entry of the summary list reads without an internal fault: whenever
both spans are present, both texts are readable. -/
def entryOk (e : LiEntry) : Bool :=
  match e.name, e.value with
  | some a, some b => okText a && okText b
  | _, _ => true

/-- An entry matches the P/E lookup: both spans present and readable, and the
normalized upper-cased label contains the target substring. -/
def entryMatchPE (e : LiEntry) : Bool :=
  match e.name, e.value with
  | some (TextV.ok ns), some (TextV.ok _) => containsSub "P/E".data (normLabel ns).data
  | _, _ => false

/-- The parsed value of a matching entry. -/
def entryPEVal (e : LiEntry) : Val :=
  match e.value with
  | some (TextV.ok vs) => parseRatioVal vs
  | _ => na

/-! ## Concrete fixtures used by counterexamples and witnesses -/

/-- A summary entry labelled Stock P/E with value 10. -/
def e1 : LiEntry := ⟨some (TextV.ok "Stock P/E"), some (TextV.ok "10")⟩

/-- A summary entry labelled Industry P/E with value 20. -/
def e2 : LiEntry := ⟨some (TextV.ok "Industry P/E"), some (TextV.ok "20")⟩

/-- A document whose summary list has two entries matching P/E. -/
def docTwoPE : Doc := ⟨some [e1, e2], []⟩

/-- A profit-loss section holding an Interest row whose last cell is 5. -/
def secsInterest : List (String × Table) :=
  [("profit-loss", [[TextV.ok "Interest", TextV.ok "5"]])]

/-- A document whose single summary entry faults when its name is read, next
to a perfectly good Interest table. -/
def docFault : Doc := ⟨some [⟨some TextV.fault, some (TextV.ok "10")⟩], secsInterest⟩

/-- The same document with the fault removed (a readable non-matching name). -/
def docPlain : Doc := ⟨some [⟨some (TextV.ok "Book Value"), some (TextV.ok "10")⟩], secsInterest⟩

/-- A market data world on which every ticker lookup raises. -/
def wyW : String → Option Quote := fun _ => none

/-- A fundamentals world on which every request fails at transport level. -/
def wsW : Request → FetchResult := fun _ => FetchResult.netFail

/-! ## Concrete rational evaluations -/

lemma ratNumEval_5 : ratOfNumeric ("5".data) = 5 := by
  have h : natOfDigits ['5'] = 5 := by decide
  show (natOfDigits ['5'] : ℚ) = 5
  rw [h]; norm_num

lemma ratNumEval_10 : ratOfNumeric ("10".data) = 10 := by
  have h : natOfDigits ['1', '0'] = 10 := by decide
  show (natOfDigits ['1', '0'] : ℚ) = 10
  rw [h]; norm_num

lemma ratNumEval_20 : ratOfNumeric ("20".data) = 20 := by
  have h : natOfDigits ['2', '0'] = 20 := by decide
  show (natOfDigits ['2', '0'] : ℚ) = 20
  rw [h]; norm_num

lemma ratNumEval_123_4 : ratOfNumeric ("123.4".data) = 617/5 := by
  have h1 : natOfDigits ['1', '2', '3'] = 123 := by decide
  have h2 : natOfDigits ['4'] = 4 := by decide
  show (natOfDigits ['1', '2', '3'] : ℚ) + (natOfDigits ['4'] : ℚ) / (10 ^ 1 : ℚ) = 617/5
  rw [h1, h2]; norm_num

lemma ratNumEval_neg123_4 : ratOfNumeric ("-123.4".data) = -(617/5) := by
  show -(ratOfUnsigned ("123.4".data)) = -(617/5)
  have h : ratOfUnsigned ("123.4".data) = ratOfNumeric ("123.4".data) := rfl
  rw [h, ratNumEval_123_4]

lemma ratNumEval_1234_50 : ratOfNumeric ("1234.50".data) = 2469/2 := by
  have h1 : natOfDigits ['1', '2', '3', '4'] = 1234 := by decide
  have h2 : natOfDigits ['5', '0'] = 50 := by decide
  show (natOfDigits ['1', '2', '3', '4'] : ℚ) + (natOfDigits ['5', '0'] : ℚ) / (10 ^ 2 : ℚ) = 2469/2
  rw [h1, h2]; norm_num

lemma ratNumEval_45_2 : ratOfNumeric ("45.2".data) = 226/5 := by
  have h1 : natOfDigits ['4', '5'] = 45 := by decide
  have h2 : natOfDigits ['2'] = 2 := by decide
  show (natOfDigits ['4', '5'] : ℚ) + (natOfDigits ['2'] : ℚ) / (10 ^ 1 : ℚ) = 226/5
  rw [h1, h2]; norm_num

/-! ## Small string and list helpers -/

lemma pyUpper_eq_empty (x : String) : pyUpper x = "" ↔ x = "" := by
  cases x with
  | mk l =>
    cases l with
    | nil => exact ⟨fun _ => rfl, fun _ => rfl⟩
    | cons c t =>
      constructor
      · intro h
        have hd : upChar c :: t.map upChar = ([] : List Char) := congrArg String.data h
        exact absurd hd (List.cons_ne_nil _ _)
      · intro h
        have hd : c :: t = ([] : List Char) := congrArg String.data h
        exact absurd hd (List.cons_ne_nil _ _)

lemma getLast?_cons_some {α : Type} {l : List α} {x : α} (h : l.getLast? = some x) (a : α) :
    (a :: l).getLast? = some x := by
  cases l with
  | nil => simp at h
  | cons b t => rw [List.getLast?_cons_cons]; exact h

lemma getLast?_cons_none {α : Type} {l : List α} (h : l.getLast? = none) (a : α) :
    (a :: l).getLast? = some a := by
  rw [List.getLast?_eq_none_iff] at h
  subst h
  exact List.getLast?_singleton a

/-! ## The last-match characterization of the P/E loop -/

lemma peLoop_eq (es : List LiEntry) : ∀ acc : Val, (∀ e ∈ es, entryOk e = true) →
    peLoop es acc = ExtrRes.done
      (match (es.filter entryMatchPE).getLast? with
       | none => acc
       | some e => entryPEVal e) := by
  induction es with
  | nil => intro acc _; rfl
  | cons e rest ih =>
    intro acc h
    have he : entryOk e = true := h e (List.mem_cons_self e rest)
    have hr : ∀ x ∈ rest, entryOk x = true := fun x hx => h x (List.mem_cons_of_mem e hx)
    obtain ⟨en, ev⟩ := e
    cases en with
    | none =>
      have hm : entryMatchPE ⟨none, ev⟩ = false := by
        cases ev with
        | none => rfl
        | some v => cases v <;> rfl
      show peLoop rest acc = _
      rw [List.filter_cons, if_neg (by simp [hm])]
      exact ih acc hr
    | some nt =>
      cases ev with
      | none =>
        have hm : entryMatchPE ⟨some nt, none⟩ = false := by cases nt <;> rfl
        show peLoop rest acc = _
        rw [List.filter_cons, if_neg (by simp [hm])]
        exact ih acc hr
      | some vt =>
        cases nt with
        | fault => simp [entryOk, okText] at he
        | ok ns =>
          cases vt with
          | fault => simp [entryOk, okText] at he
          | ok vs =>
            show peLoop rest
                (if containsSub "P/E".data (normLabel ns).data then parseRatioVal vs else acc) = _
            have hm : entryMatchPE ⟨some (TextV.ok ns), some (TextV.ok vs)⟩
                = containsSub "P/E".data (normLabel ns).data := rfl
            cases hc : containsSub "P/E".data (normLabel ns).data with
            | false =>
              rw [if_neg (by simp [hc])]
              rw [List.filter_cons, if_neg (by simp [hm, hc])]
              exact ih acc hr
            | true =>
              rw [if_pos (by simp [hc])]
              rw [List.filter_cons, if_pos (by simp [hm, hc])]
              rw [ih (parseRatioVal vs) hr]
              cases hfr : (rest.filter entryMatchPE).getLast? with
              | none =>
                rw [getLast?_cons_none hfr]
                rfl
              | some x =>
                rw [getLast?_cons_some hfr]

/-! ## Merge and access lemmas for rows -/

lemma hasKey_append (a b : Row) (c : String) :
    hasKey (a ++ b) c = (hasKey a c || hasKey b c) := by
  simp [hasKey, strMem, keyList, List.map_append, List.any_append]

lemma mergeCols_eq : ∀ (cols : List String) (base : Row) (r : Row), cols.Nodup →
    mergeCols base cols r
      = base ++ (cols.filter (fun c => !hasKey base c)).map (fun c => (c, getVal r c)) := by
  intro cols
  induction cols with
  | nil => intro base r _; simp [mergeCols]
  | cons c cs ih =>
    intro base r hnd
    obtain ⟨hc, hcs⟩ := List.nodup_cons.mp hnd
    show List.foldl _ base (c :: cs) = _
    rw [List.foldl_cons]
    cases hb : hasKey base c with
    | true =>
      rw [if_pos (by simp [hb])]
      rw [show List.foldl _ base cs = mergeCols base cs r from rfl, ih base r hcs]
      rw [List.filter_cons, if_neg (by simp [hb])]
    | false =>
      rw [if_neg (by simp [hb])]
      rw [show List.foldl _ (base ++ [(c, getVal r c)]) cs
            = mergeCols (base ++ [(c, getVal r c)]) cs r from rfl]
      rw [ih (base ++ [(c, getVal r c)]) r hcs]
      have hfc : cs.filter (fun x => !hasKey (base ++ [(c, getVal r c)]) x)
          = cs.filter (fun x => !hasKey base x) := by
        apply List.filter_congr
        intro x hx
        have hxc : hasKey [(c, getVal r c)] x = false := by
          have : c ≠ x := fun e => hc (e ▸ hx)
          simp [hasKey, strMem, keyList, this]
        rw [hasKey_append, hxc, Bool.or_false]
      rw [hfc, List.filter_cons, if_pos (by simp [hb]), List.map_cons, List.append_assoc,
        List.singleton_append]

lemma getVal_append_of_not_key {a : Row} {c : String} (h : hasKey a c = false) (b : Row) :
    getVal (a ++ b) c = getVal b c := by
  have hfind : a.find? (fun p => p.1 == c) = none := by
    rw [List.find?_eq_none]
    intro p hp hpc
    have : (keyList a).any (fun x => x == c) = true := by
      rw [List.any_eq_true]
      exact ⟨p.1, List.mem_map.mpr ⟨p, hp, rfl⟩, hpc⟩
    rw [show (keyList a).any (fun x => x == c) = hasKey a c from rfl, h] at this
    exact Bool.false_ne_true this
  simp [getVal, List.find?_append, hfind]

lemma getVal_append_of_key {a : Row} {c : String} (h : hasKey a c = true) (b : Row) :
    getVal (a ++ b) c = getVal a c := by
  have hsome : (a.find? (fun p => p.1 == c)).isSome = true := by
    rw [List.find?_isSome]
    have := (List.any_eq_true).mp h
    obtain ⟨x, hx, hxc⟩ := this
    obtain ⟨p, hp, rfl⟩ := List.mem_map.mp hx
    exact ⟨p, hp, hxc⟩
  cases hfa : a.find? (fun p => p.1 == c) with
  | none => rw [hfa] at hsome; simp at hsome
  | some v => simp [getVal, List.find?_append, hfa]

lemma getVal_keyMap : ∀ (l : List String) (r : Row) (c : String), c ∈ l →
    getVal (l.map (fun x => (x, getVal r x))) c = getVal r c := by
  intro l
  induction l with
  | nil => intro r c hc; simp at hc
  | cons a t ih =>
    intro r c hc
    cases hac : (a == c) with
    | true =>
      have : a = c := beq_iff_eq.mp hac
      subst this
      simp [getVal, List.find?_cons, hac]
    | false =>
      have hne : a ≠ c := beq_eq_false_iff_ne.mp hac
      have hct : c ∈ t := by
        cases List.mem_cons.mp hc with
        | inl h => exact absurd h.symm hne
        | inr h => exact h
      show getVal ((a, getVal r a) :: t.map (fun x => (x, getVal r x))) c = getVal r c
      rw [show getVal ((a, getVal r a) :: t.map (fun x => (x, getVal r x))) c
            = getVal (t.map (fun x => (x, getVal r x))) c from by simp [getVal, List.find?_cons, hac]]
      exact ih r c hct

/-! ## The row loop: outputs and progress trace -/

lemma runAux_fst (wy : String → Option Quote) (ws : Request → FetchResult)
    (cols : List String) (n : Nat) : ∀ (i : Nat) (rows : List Row),
    (runAux wy ws cols n i rows).1
      = (rows.filter (fun r => !blankName r)).map (processRow wy ws cols) := by
  intro i rows
  induction rows generalizing i with
  | nil => rfl
  | cons r rest ih =>
    cases hb : blankName r with
    | false => simp [runAux, hb, List.filter_cons, ih]
    | true => simp [runAux, hb, List.filter_cons, ih]

lemma runAux_snd (wy : String → Option Quote) (ws : Request → FetchResult)
    (cols : List String) (n : Nat) : ∀ (rows : List Row) (i : Nat),
    (runAux wy ws cols n i rows).2
      = (List.range rows.length).map (fun k => (((i + k : Nat) : ℚ) + 1) / (n : ℚ)) := by
  intro rows
  induction rows with
  | nil => intro i; rfl
  | cons r rest ih =>
    intro i
    show (((i : ℚ) + 1) / (n : ℚ)) :: (runAux wy ws cols n (i + 1) rest).2 = _
    rw [ih (i + 1)]
    rw [List.length_cons, List.range_succ_eq_map, List.map_cons, List.map_map]
    congr 1
    apply List.map_congr_left
    intro a _
    simp only [Function.comp_apply]
    push_cast
    ring

/-! ## Claim C1 -/

/-- Claim C1, counterexample: the statement-table parser strips every dash
during normalization, so the negative value -123.4 parses to the positive
number 123.4 rather than to -123.4 (and not to the unavailable marker
either), contradicting the claim that a value matching the strict pattern,
whose optional leading minus the claim keeps, parses to the exact numeric
value. -/
theorem C1_counterexample :
    parseTableText "-123.4" = Val.num (617/5)
    ∧ parseTableText "-123.4" ≠ Val.num (-(617/5)) := by
  have h : parseTableText "-123.4" = Val.num (ratOfNumeric ("123.4".data)) := rfl
  constructor
  · rw [h, ratNumEval_123_4]
  · rw [h, ratNumEval_123_4]
    simp only [ne_eq, Val.num.injEq]
    norm_num

/-- Claim C1, amended: each extraction path has its own normalization. The
statement-table parser strips thousands separators, every dash (hence the
leading minus, so negative values parse to their absolute value) and spaces,
but not currency or percent signs; the summary-list parser strips the
currency symbol, percent sign and thousands separator but not dashes. Each
returns the unavailable marker exactly when its normalized text fails the
strict numeric pattern, and otherwise the numeric value of the normalized
text. So 1,234.50 parses to 1234.50 in both paths; a bare dash is
unavailable in both; ₹45.2% parses to 45.2 in the summary-list parser and is
unavailable in the statement-table parser; -123.4 parses to -123.4 in the
summary-list parser but to 123.4 in the statement-table parser. -/
theorem C1_amended_thm :
    (∀ s, matchesNumeric (tableNorm s).data = false → parseTableText s = na)
    ∧ (∀ s, matchesNumeric (tableNorm s).data = true →
        parseTableText s = Val.num (ratOfNumeric (tableNorm s).data))
    ∧ (∀ s, matchesNumeric (ratioNorm s).data = false → parseRatioVal s = na)
    ∧ (∀ s, matchesNumeric (ratioNorm s).data = true →
        parseRatioVal s = Val.num (ratOfNumeric (ratioNorm s).data))
    ∧ parseTableText "1,234.50" = Val.num (2469/2)
    ∧ parseRatioVal "1,234.50" = Val.num (2469/2)
    ∧ parseTableText "-" = na
    ∧ parseRatioVal "-" = na
    ∧ parseTableText "₹45.2%" = na
    ∧ parseRatioVal "₹45.2%" = Val.num (226/5)
    ∧ parseTableText "-123.4" = Val.num (617/5)
    ∧ parseRatioVal "-123.4" = Val.num (-(617/5)) := by
  refine ⟨?_, ?_, ?_, ?_, ?_, ?_, by decide, by decide, by decide, ?_, ?_, ?_⟩
  · intro s h; simp [parseTableText, h]
  · intro s h; simp [parseTableText, h]
  · intro s h; simp [parseRatioVal, h]
  · intro s h; simp [parseRatioVal, h]
  · have h : parseTableText "1,234.50" = Val.num (ratOfNumeric ("1234.50".data)) := rfl
    rw [h, ratNumEval_1234_50]
  · have h : parseRatioVal "1,234.50" = Val.num (ratOfNumeric ("1234.50".data)) := rfl
    rw [h, ratNumEval_1234_50]
  · have h : parseRatioVal "₹45.2%" = Val.num (ratOfNumeric ("45.2".data)) := rfl
    rw [h, ratNumEval_45_2]
  · have h : parseTableText "-123.4" = Val.num (ratOfNumeric ("123.4".data)) := rfl
    rw [h, ratNumEval_123_4]
  · have h : parseRatioVal "-123.4" = Val.num (ratOfNumeric ("-123.4".data)) := rfl
    rw [h, ratNumEval_neg123_4]

/-- Witness for the amended claim C1, discharging its hypotheses at concrete
inputs. -/
theorem C1_amended_witness :
    parseTableText "abc" = na
    ∧ parseTableText "7" = Val.num (ratOfNumeric (tableNorm "7").data)
    ∧ parseRatioVal "abc" = na
    ∧ parseRatioVal "7" = Val.num (ratOfNumeric (ratioNorm "7").data) :=
  ⟨C1_amended_thm.1 "abc" (by decide),
   C1_amended_thm.2.1 "7" (by decide),
   C1_amended_thm.2.2.1 "abc" (by decide),
   C1_amended_thm.2.2.2.1 "7" (by decide)⟩

/-! ## Claim C4 -/

/-- Claim C4, counterexample: the fallback removes only space characters,
not all whitespace. The reachable normalized name with an interior tab
resolves to a symbol that keeps the tab, where the claim predicts AB.NS. -/
theorem C4_counterexample :
    pyUpper (pyStrip " a\tb ") = "A\tB"
    ∧ mapLookup "A\tB" = none
    ∧ resolve "A\tB" = ("A\tB.NS", "A\tB")
    ∧ ("A\tB.NS" : String) ≠ "AB.NS" := by decide

/-- Claim C4, amended: resolve is total and pure; every name found in the
override table gets its configured pair verbatim, and every other name gets
the fallback pair built by removing space characters (tabs and other
whitespace are kept) and appending the fixed .NS suffix, with the name
itself reused as the fundamentals identifier. -/
theorem C4_amended_thm :
    resolve "INFOSYS" = ("INFY.NS", "INFOSYS")
    ∧ resolve "HDFC" = ("HDFCBANK.NS", "HDFCBANK")
    ∧ resolve "L&T" = ("LT.NS", "LT")
    ∧ (∀ n p, mapLookup n = some p → resolve n = p)
    ∧ (∀ n, mapLookup n = none → resolve n = (removeChar ' ' n ++ ".NS", n)) := by
  refine ⟨by decide, by decide, by decide, ?_, ?_⟩
  · intro n p h; simp [resolve, h]
  · intro n h; simp [resolve, h]

/-- Witness for the amended claim C4. -/
theorem C4_amended_witness :
    resolve "L&T" = ("LT.NS", "LT") ∧ resolve "TCS" = ("TCS.NS", "TCS") := by
  constructor
  · exact C4_amended_thm.2.2.2.1 "L&T" ("LT.NS", "LT") (by decide)
  · rw [C4_amended_thm.2.2.2.2 "TCS" (by decide)]
    decide

/-! ## Claim C5 -/

/-- Claim C5, confirmed: the normalized market cap equals the raw figure
divided by ten million and rounded to two decimal places exactly when the
raw figure is numeric (123456789 yields 12.35, that is 247/20), and is the
unavailable marker otherwise, both at the level of the market cap branch and
of the whole market data fetch. -/
theorem C5_thm :
    (∀ q : ℚ, market_cap_cr (Val.num q) = Val.num (pyRound2 (q / 10000000)))
    ∧ (∀ s, market_cap_cr (Val.str s) = na)
    ∧ market_cap_cr Val.nan = na
    ∧ market_cap_cr (Val.num 123456789) = Val.num (247/20)
    ∧ (∀ q cp, (yfFetch (some ⟨cp, some (Val.num q)⟩)).2 = Val.num (pyRound2 (q / 10000000)))
    ∧ (∀ cp, (yfFetch (some ⟨cp, none⟩)).2 = na)
    ∧ (∀ cp s, (yfFetch (some ⟨cp, some (Val.str s)⟩)).2 = na)
    ∧ yfFetch none = (na, na) := by
  refine ⟨fun q => rfl, fun s => rfl, rfl, ?_, fun q cp => rfl, fun cp => rfl,
    fun cp s => rfl, rfl⟩
  show Val.num (pyRound2 ((123456789 : ℚ) / 10000000)) = Val.num (247/20)
  have h : pyRound2 ((123456789 : ℚ) / 10000000) = 247/20 := by
    norm_num [pyRound2, roundHalfEvenInt]
  rw [h]

/-! ## Claim C2 -/

/-- Claim C2, counterexample: the P/E loop and the interest extraction sit
under one shared exception handler, so degradation is not field by field. In
docFault the single summary entry faults while the interest table is intact;
the fault during the P/E extraction also forces the interest field to the
unavailable marker, although on docPlain, identical except for the fault,
the interest field extracts to 5. -/
theorem C2_counterexample :
    docFault.sections = docPlain.sections
    ∧ screenerExtract docFault = (na, na)
    ∧ screenerExtract docPlain = (na, Val.num 5) := by
  refine ⟨rfl, rfl, ?_⟩
  have h : screenerExtract docPlain = (na, Val.num (ratOfNumeric ("5".data))) := rfl
  rw [h, ratNumEval_5]

/-- Claim C2, amended: no exception ever propagates outward from either
extraction (both are total and the statement extractor returns the
unavailable marker or the parse of a cell text); the P/E result never
depends on the statement tables; a fault inside the statement extraction is
caught locally, so whenever the P/E loop finishes the interest field equals
the statement extraction of the document; but a fault during the P/E loop
aborts the remaining extraction, leaving the P/E field at the state the data
record had at the fault and the interest field at the unavailable marker. -/
theorem C2_amended_thm :
    (∀ rl secs secs2, (screenerExtract ⟨rl, secs⟩).1 = (screenerExtract ⟨rl, secs2⟩).1)
    ∧ (∀ d pe, peExtract d = ExtrRes.done pe →
        screenerExtract d = (pe, extract_table_value d.sections "profit-loss" "Interest"))
    ∧ (∀ d pe, peExtract d = ExtrRes.raised pe → screenerExtract d = (pe, na))
    ∧ (∀ secs tid rn, extract_table_value secs tid rn = na
        ∨ ∃ s, extract_table_value secs tid rn = parseTableText s) := by
  refine ⟨?_, ?_, ?_, ?_⟩
  · intro rl secs secs2
    have e : peExtract ⟨rl, secs2⟩ = peExtract ⟨rl, secs⟩ := rfl
    cases hp : peExtract ⟨rl, secs⟩ with
    | done pe => simp [screenerExtract, hp, e]
    | raised pe => simp [screenerExtract, hp, e]
  · intro d pe h; simp [screenerExtract, h]
  · intro d pe h; simp [screenerExtract, h]
  · intro secs tid rn
    unfold extract_table_value extractTableBody
    cases (secs.find? (fun p => p.1 == tid)).map (fun p => p.2) with
    | none => exact Or.inl rfl
    | some t =>
      dsimp only
      cases findRow t rn with
      | none => exact Or.inl rfl
      | some cells =>
        dsimp only
        cases cells.getLast? with
        | none => exact Or.inl rfl
        | some c =>
          cases c with
          | ok s => exact Or.inr ⟨s, rfl⟩
          | fault => exact Or.inl rfl

/-- Witness for the amended claim C2. -/
theorem C2_amended_witness :
    screenerExtract ⟨some [], secsInterest⟩ = (na, Val.num 5)
    ∧ screenerExtract ⟨some [⟨some TextV.fault, some (TextV.ok "1")⟩],
        ([] : List (String × Table))⟩ = (na, na) := by
  constructor
  · rw [C2_amended_thm.2.1 (⟨some [], secsInterest⟩ : Doc) na (by decide)]
    show (na, Val.num (ratOfNumeric ("5".data))) = (na, Val.num 5)
    rw [ratNumEval_5]
  · exact C2_amended_thm.2.2.1 _ na (by decide)

/-! ## Claim C3 -/

/-- Claim C3, counterexample: the P/E loop has no break, so with two
matching entries the result is the parse of the last one. On docTwoPE the
first matching entry parses to 10, but the extraction yields 20, where the
claim predicts the first match. -/
theorem C3_counterexample :
    entryMatchPE e1 = true
    ∧ entryPEVal e1 = Val.num 10
    ∧ (screenerExtract docTwoPE).1 = Val.num 20
    ∧ (20 : ℚ) ≠ 10 := by
  refine ⟨by decide, ?_, ?_, by norm_num⟩
  · have h : entryPEVal e1 = Val.num (ratOfNumeric ("10".data)) := rfl
    rw [h, ratNumEval_10]
  · have h : (screenerExtract docTwoPE).1 = Val.num (ratOfNumeric ("20".data)) := rfl
    rw [h, ratNumEval_20]

/-- Claim C3, amended: on a document whose summary list is absent the P/E
field is unavailable; on a fault-free summary list the loop compares every
entry with both spans present through a case-insensitive,
whitespace-normalized substring match against P/E, and the result is the
parse of the LAST matching entry (the parse of each match overwrites the
data field), the unavailable marker when no entry matches, and likewise
when the last matching value fails the numeric pattern. -/
theorem C3_amended_thm :
    (∀ secs, (screenerExtract ⟨none, secs⟩).1 = na)
    ∧ (∀ es secs, (∀ e ∈ es, entryOk e = true) →
        (screenerExtract ⟨some es, secs⟩).1
          = (match (es.filter entryMatchPE).getLast? with
             | none => na
             | some e => entryPEVal e)) := by
  constructor
  · intro secs; rfl
  · intro es secs h
    have hpe : peExtract ⟨some es, secs⟩ = ExtrRes.done
        (match (es.filter entryMatchPE).getLast? with
         | none => na
         | some e => entryPEVal e) := peLoop_eq es na h
    simp [screenerExtract, hpe]

/-- Witness for the amended claim C3. -/
theorem C3_amended_witness :
    (screenerExtract ⟨some [e1], ([] : List (String × Table))⟩).1 = Val.num 10 := by
  rw [C3_amended_thm.2 [e1] [] (by decide)]
  show Val.num (ratOfNumeric ("10".data)) = Val.num 10
  rw [ratNumEval_10]

/-! ## Claim C6 -/

/-- Claim C6, confirmed: the fundamentals fetch builds the page URL from the
identifier with spaces turned to hyphens and ampersands percent-encoded,
issues the request with the browser-like user agent and the ten-second
timeout, and on every failing outcome (transport error, status in the
4xx/5xx range raised by raise_for_status, or a parse fault) returns both
fields as the unavailable marker without raising. -/
theorem C6_thm (idf : String) (world : Request → FetchResult) :
    (screenerRequest idf).userAgent = "Mozilla/5.0"
    ∧ (screenerRequest idf).timeoutSecs = 10
    ∧ (screenerRequest idf).url
        = "https://www.screener.in/company/" ++ formattedName idf ++ "/consolidated/"
    ∧ (screenerRequest "TATA & SONS").url
        = "https://www.screener.in/company/TATA-%26-SONS/consolidated/"
    ∧ (∀ st, isFailure (world (screenerRequest idf)) = true →
        scrape_screener_data_minimal st idf world = (na, na)) := by
  refine ⟨rfl, rfl, rfl, by decide, ?_⟩
  intro st h
  cases hw : world (screenerRequest idf) with
  | netFail => simp [scrape_screener_data_minimal, hw]
  | got status d =>
    rw [hw] at h
    simp only [isFailure] at h
    simp only [scrape_screener_data_minimal, hw]
    cases d with
    | none =>
      cases hcond : (decide (400 ≤ status) && decide (status < 600)) with
      | true => simp [hcond]
      | false => simp [hcond]
    | some doc =>
      simp only [Option.isNone_some, Bool.or_false] at h
      simp [h]

/-- Witness for claim C6. -/
theorem C6_witness :
    scrape_screener_data_minimal "X" "Y" wsW = (na, na) :=
  (C6_thm "Y" wsW).2.2.2.2 "X" (by decide)

/-! ## Claim C7 -/

/-- Claim C7, confirmed: the output row sequence is exactly the input rows
whose normalized stock name is non-blank, processed in input order, one
output row per non-skipped input row and none for a skipped one (so the
output count is the count of non-blank rows); and a row whose stock name
cell is a string is blank precisely when that string strips to empty, that
is, when it is empty or whitespace-only. -/
theorem C7_thm (wy : String → Option Quote) (ws : Request → FetchResult)
    (cols : List String) (rows : List Row) :
    (runBatch wy ws cols rows).1
        = (rows.filter (fun r => !blankName r)).map (processRow wy ws cols)
    ∧ ((runBatch wy ws cols rows).1).length
        = (rows.filter (fun r => !blankName r)).length
    ∧ (∀ s rest, blankName (("Stock Name", Val.str s) :: rest) = decide (pyStrip s = "")) := by
  refine ⟨runAux_fst wy ws cols rows.length 0 rows, ?_, ?_⟩
  · have h := runAux_fst wy ws cols rows.length 0 rows
    show ((runAux wy ws cols rows.length 0 rows).1).length = _
    rw [h, List.length_map]
  · intro s rest
    have h1 : rowStockName (("Stock Name", Val.str s) :: rest) = pyUpper (pyStrip s) := rfl
    simp only [blankName, h1]
    rw [decide_eq_decide]
    exact pyUpper_eq_empty (pyStrip s)

/-! ## Claim C8 -/

/-- Claim C8, confirmed: a processed row is the six extracted columns in
their fixed order followed by exactly the original columns not among the six
new names, in original order with values passed through unchanged; the keys
of every processed row are the final column order of the output table; and
on a name collision the extracted field wins, the merged value of any of the
six names being the extracted one. -/
theorem C8_thm (wy : String → Option Quote) (ws : Request → FetchResult)
    (cols : List String) (r : Row) (h : cols.Nodup) :
    processRow wy ws cols r
        = extractedCols wy ws r
          ++ (cols.filter (fun c => !strMem c newColNames)).map (fun c => (c, getVal r c))
    ∧ keyList (processRow wy ws cols r) = finalColOrder cols
    ∧ (∀ c, c ∈ cols → strMem c newColNames = false →
        getVal (processRow wy ws cols r) c = getVal r c)
    ∧ (∀ c, strMem c newColNames = true →
        getVal (processRow wy ws cols r) c = getVal (extractedCols wy ws r) c) := by
  have hkeys : keyList (extractedCols wy ws r) = newColNames := rfl
  have hpred : (fun c => !hasKey (extractedCols wy ws r) c)
      = (fun c => !strMem c newColNames) := rfl
  have hmerge := mergeCols_eq cols (extractedCols wy ws r) r h
  rw [hpred] at hmerge
  refine ⟨hmerge, ?_, ?_, ?_⟩
  · show keyList (mergeCols (extractedCols wy ws r) cols r) = _
    rw [hmerge]
    simp only [keyList, List.map_append, List.map_map]
    rw [show (extractedCols wy ws r).map (fun p => p.1) = newColNames from rfl]
    have hid : ((fun p : String × Val => p.1) ∘ fun c => (c, getVal r c)) = fun c => c := rfl
    rw [hid, List.map_id']
    rfl
  · intro c hc hnc
    show getVal (mergeCols (extractedCols wy ws r) cols r) c = getVal r c
    rw [hmerge]
    have hk : hasKey (extractedCols wy ws r) c = false := by
      show strMem c (keyList (extractedCols wy ws r)) = false
      rw [hkeys]
      exact hnc
    rw [getVal_append_of_not_key hk]
    apply getVal_keyMap
    rw [List.mem_filter]
    exact ⟨hc, by simp [hnc]⟩
  · intro c hcn
    show getVal (mergeCols (extractedCols wy ws r) cols r) c = getVal (extractedCols wy ws r) c
    rw [hmerge]
    apply getVal_append_of_key
    show strMem c (keyList (extractedCols wy ws r)) = true
    rw [hkeys]
    exact hcn

/-- Witness for claim C8. -/
theorem C8_witness :
    keyList (processRow wyW wsW ["Stock Name", "Extra"]
        [("Stock Name", Val.str "ACME"), ("Extra", Val.str "x")])
      = finalColOrder ["Stock Name", "Extra"] :=
  (C8_thm wyW wsW ["Stock Name", "Extra"]
    [("Stock Name", Val.str "ACME"), ("Extra", Val.str "x")] (by decide)).2.1

/-! ## Claim C9 -/

/-- Claim C9, confirmed: the loop emits exactly one progress value per input
row, the value current after the k-th row is handled being k divided by the
total row count (the count of rows iterated so far over the total), and the
emitted sequence is strictly monotonically increasing over the run. -/
theorem C9_thm (wy : String → Option Quote) (ws : Request → FetchResult)
    (cols : List String) (rows : List Row) :
    (runBatch wy ws cols rows).2
        = (List.range rows.length).map (fun k : Nat => ((k : ℚ) + 1) / (rows.length : ℚ))
    ∧ List.Pairwise (fun a b : ℚ => a < b) (runBatch wy ws cols rows).2 := by
  have htrace : (runBatch wy ws cols rows).2
      = (List.range rows.length).map (fun k : Nat => ((k : ℚ) + 1) / (rows.length : ℚ)) := by
    have h := runAux_snd wy ws cols rows.length rows 0
    show (runAux wy ws cols rows.length 0 rows).2 = _
    rw [h]
    apply List.map_congr_left
    intro a _
    norm_num
  refine ⟨htrace, ?_⟩
  rw [htrace]
  cases rows with
  | nil => simp
  | cons r rest =>
    have hn : (0 : ℚ) < ((r :: rest).length : ℚ) := by
      have h0 : 0 < (r :: rest).length := Nat.succ_pos _
      exact_mod_cast h0
    apply List.Pairwise.map
    · intro a b hab
      rw [div_lt_div_iff₀ hn hn]
      have hab2 : (a : ℚ) + 1 < (b : ℚ) + 1 := by
        have : (a : ℚ) < (b : ℚ) := by exact_mod_cast hab
        linarith
      exact mul_lt_mul_of_pos_right hab2 hn
    · exact List.pairwise_lt_range _

/-! ## Claim C10 -/

/-- Claim C10, confirmed: a row whose stock name cell is the missing-value
marker is not skipped; it stringifies to nan, normalizes to the non-empty
name NAN, resolves through the fallback to the pair NAN.NS and NAN, and is
emitted as a full output row using the symbol NAN.NS. -/
theorem C10_thm :
    (runBatch wyW wsW ["Stock Name"] [[("Stock Name", Val.nan)]]).1
        = [[("Stock Name", Val.nan),
            ("YF Symbol Used", Val.str "NAN.NS"),
            ("Current Price (Rs.)", na),
            ("Market Cap (Cr.)", na),
            ("P/E Ratio", na),
            ("Interest (Cr.)", na)]]
    ∧ rowStockName [("Stock Name", Val.nan)] = "NAN"
    ∧ blankName [("Stock Name", Val.nan)] = false
    ∧ resolve "NAN" = ("NAN.NS", "NAN") := by
  refine ⟨by decide, by decide, by decide, by decide⟩

end StockScraper
